import Mathlib

/-!
Shallow embedding of the policy evaluation engine of repo-policy-gate
(src/index.js).  The pure computations (severity model, deny-rule parser,
lock-manifest reader, violation compilation, verdict) are translated
directly from the source.  The thin I/O collaborators the engine calls
(filesystem existence checks, the JavaScript RegExp engine, the external
semver library, reading package-lock.json from disk) are modelled as
oracles gathered in the `Env` structure: the engine only branches on their
results, never on how they are produced.
-/

/-- A violation record as constructed by `compileViolations` in
src/index.js: `{ ruleId, severity, message, howToFix }`. -/
structure Violation where
  ruleId : String
  severity : String
  message : String
  howToFix : String
deriving DecidableEq

/-- src/index.js lines 10-12:
`s === "warn" || s === "warning" ? "warn" : "error"`. -/
def normalizeSeverity (s : String) : String :=
  if s = "warn" ∨ s = "warning" then "warn" else "error"

/-- src/index.js lines 14-16: `warn -> 1`, `error -> 2`. -/
def severityRank (sev : String) : Nat :=
  if normalizeSeverity sev = "warn" then 1 else 2

/-- The configuration fields the engine reads.  The source accesses them as
`config.severity_overrides`, `config.fail_on`,
`config?.pull_request?.title_regex`, `config?.repo?.required_files` and
`config?.dependencies?.deny`; the two nested paths are flattened into one
field each here since the engine never looks at the intermediate objects.
`none` models an absent (or, for the two list fields, non-array) value.
Override values and `fail_on` are modelled as strings, the shape the
documented configuration uses. -/
structure Config where
  severity_overrides : List (String × String)
  fail_on : Option String
  title_regex : Option String
  required_files : Option (List String)
  deny : Option (List String)

/-- JavaScript truthiness of an optional string: absent values and the
empty string are falsy, every other string is truthy. -/
def truthyStr : Option String → Option String
  | some s => if s = "" then none else some s
  | none => none

/-- JavaScript guard `Array.isArray(x) && x.length`: absent values and the
empty array are falsy. -/
def truthyList : Option (List String) → Option (List String)
  | some [] => none
  | some (x :: xs) => some (x :: xs)
  | none => none

/-- Property lookup `overrides[k]` on a JavaScript object, modelled as an
association list (JavaScript object keys are unique, so taking the first
match is faithful). -/
def lookupOverride : List (String × String) → String → Option String
  | [], _ => none
  | p :: rest, k => if p.1 = k then some p.2 else lookupOverride rest k

/-- The truthiness test `if (overrides[v.ruleId])` of src/index.js line 21:
the entry is used only when present and not the empty string. -/
def truthyLookup (ov : List (String × String)) (k : String) : Option String :=
  match lookupOverride ov k with
  | some s => if s = "" then none else some s
  | none => none

/-- The per-violation body of the loop in `applySeverityOverrides`
(src/index.js lines 20-24). -/
def overrideOne (ov : List (String × String)) (v : Violation) : Violation :=
  match truthyLookup ov v.ruleId with
  | some s => { v with severity := normalizeSeverity s }
  | none => v

/-- `applySeverityOverrides` (src/index.js lines 18-26).  The source
mutates each violation in place and returns the same list; the pure
rendering maps the update over the list.  `config?.severity_overrides || {}`
becomes the empty map when the configuration is absent. -/
def applySeverityOverrides (config : Option Config) (violations : List Violation) : List Violation :=
  violations.map (overrideOne (match config with
    | some cfg => cfg.severity_overrides
    | none => []))

/-- The expression `config?.fail_on || "error"` of src/index.js line 29:
an absent configuration, an absent field or an empty string all fall back
to the default threshold. -/
def failOnRaw (config : Option Config) : String :=
  match config with
  | some cfg =>
    match cfg.fail_on with
    | some s => if s = "" then "error" else s
    | none => "error"
  | none => "error"

/-- `shouldFail` (src/index.js lines 28-32). -/
def shouldFail (config : Option Config) (violations : List Violation) : Bool :=
  let threshold := severityRank (normalizeSeverity (failOnRaw config))
  violations.any (fun v => decide (threshold ≤ severityRank v.severity))

/-- Characters removed by JavaScript `String.prototype.trim` from the
front of a string (whitespace per `Char.isWhitespace`, which covers the
ASCII whitespace the engine's inputs use). -/
def dropLeadingWs : List Char → List Char
  | [] => []
  | c :: cs => if c.isWhitespace then dropLeadingWs cs else c :: cs

/-- JavaScript `rule.trim()`: strip whitespace from both ends. -/
def jsTrim (s : String) : String :=
  String.mk ((dropLeadingWs ((dropLeadingWs s.data).reverse)).reverse)

/-- JavaScript `rule.lastIndexOf("@")`, returning `none` for -1: the
largest index holding the separator character, if any. -/
def lastIndexOfAmp : List Char → Option Nat
  | [] => none
  | c :: cs =>
    match lastIndexOfAmp cs with
    | some i => some (i + 1)
    | none => if c = '@' then some 0 else none

/-- A parsed deny-list entry: package name plus optional semver range. -/
structure DenyRule where
  name : String
  range : Option String
deriving DecidableEq

/-- `parseDenyRule` (src/index.js lines 47-58): split at the last `"@"`
when its index is positive; `rule.slice(idx + 1).trim() || null` turns a
whitespace-only suffix into an absent range. -/
def parseDenyRule (rule : String) : DenyRule :=
  match lastIndexOfAmp rule.data with
  | some idx =>
    if 0 < idx then
      let suffix := jsTrim (String.mk (rule.data.drop (idx + 1)))
      { name := String.mk (rule.data.take idx),
        range := if suffix = "" then none else some suffix }
    else { name := jsTrim rule, range := none }
  | none => { name := jsTrim rule, range := none }

/-- A resolved dependency record `{ name, version }` collected from the
lock manifest. -/
structure DepRecord where
  name : String
  version : String
deriving DecidableEq

/-- The string key `` `${d.name}@${d.version}` `` used both for
deduplication (src/index.js line 106) and for the banned-dependency labels
(lines 293 and 301). -/
def depLabel (d : DepRecord) : String := d.name ++ "@" ++ d.version

/-- One value of the `lock.packages` mapping: either a null entry (skipped
by `if (!info ...) continue`) or an object with optional `name` and
`version` string fields. -/
inductive PkgEntry where
  | null : PkgEntry
  | info (name : Option String) (version : Option String) : PkgEntry

/-- The recursive `lock.dependencies` mapping of an npm v6 lockfile, as a
forest of named entries.  `consNull` models a null entry (skipped by
`if (!info) continue`); `consNode` carries the optional `version` field
and the nested `dependencies` mapping.  An absent `dependencies` field and
a present-but-empty one are both modelled as `nil` children: the source
walks a present mapping and collects nothing from an empty one, which is
observably identical to skipping an absent one. -/
inductive DepForest where
  | nil : DepForest
  | consNull (name : String) (rest : DepForest) : DepForest
  | consNode (name : String) (version : Option String) (children : DepForest)
      (rest : DepForest) : DepForest

/-- The parsed package-lock object: the flat `packages` mapping of
lockfileVersion 2/3 (with `none` for an absent or non-object field) and
the recursive `dependencies` tree of lockfileVersion 1. -/
structure Lock where
  packages : Option (List (String × PkgEntry))
  dependencies : Option DepForest

/-- Outcome of `readPackageLock` (src/index.js lines 60-71): the file is
absent, it is not valid JSON, or it parsed to a lock object. -/
inductive LockResult where
  | missing : LockResult
  | invalidJson : LockResult
  | ok (lock : Lock) : LockResult

/-- The path segment stripped when deriving a package name from its
installation path. -/
def nodeModulesSeg : String := "node_modules/"

/-- JavaScript `pkgPath.startsWith("node_modules/")`. -/
def underNodeModules (p : String) : Bool :=
  nodeModulesSeg.data.isPrefixOf p.data

/-- JavaScript `pkgPath.replace(/^node_modules\//, "")`: the anchored
regex strips exactly one leading segment (only invoked after the
`startsWith` guard). -/
def stripNodeModulesSeg (p : String) : String :=
  String.mk (p.data.drop nodeModulesSeg.data.length)

/-- Name resolution for one flat entry (src/index.js lines 81-85):
an explicit truthy `info.name` wins; otherwise the name is derived from a
`node_modules/`-prefixed path; a falsy result means the entry is skipped. -/
def flatEntryName (pkgPath : String) (name : Option String) : Option String :=
  match truthyStr name with
  | some n => some n
  | none =>
    if underNodeModules pkgPath then truthyStr (some (stripNodeModulesSeg pkgPath))
    else none

/-- The flat-form extraction loop of `collectDepsFromLock`
(src/index.js lines 78-89): entries without a truthy version or without a
resolvable name are skipped. -/
def collectFlat : List (String × PkgEntry) → List DepRecord
  | [] => []
  | (pkgPath, entry) :: rest =>
    (match entry with
     | PkgEntry.null => []
     | PkgEntry.info nm ver =>
       match truthyStr ver with
       | none => []
       | some v =>
         match flatEntryName pkgPath nm with
         | some n => [{ name := n, version := v }]
         | none => []) ++ collectFlat rest

/-- The recursive `walk` of `collectDepsFromLock` (src/index.js lines
93-100): push the node's record when its version is truthy, then walk its
children, then the remaining siblings; depth is unbounded. -/
def walkForest : DepForest → List DepRecord
  | DepForest.nil => []
  | DepForest.consNull _ rest => walkForest rest
  | DepForest.consNode name ver children rest =>
    (match truthyStr ver with
     | some v => [{ name := name, version := v }]
     | none => []) ++ walkForest children ++ walkForest rest

/-- The fallback guard of src/index.js line 92:
`!lock.packages || !Object.keys(lock.packages || {}).length`. -/
def packagesEmptyOrAbsent (lock : Lock) : Bool :=
  match lock.packages with
  | none => true
  | some [] => true
  | some (_ :: _) => false

/-- The dedupe filter of `collectDepsFromLock` (src/index.js lines
103-110): keep a record only when its `name@version` key has not been
seen yet. -/
def dedupeAux : List DepRecord → List String → List DepRecord
  | [], _ => []
  | d :: rest, seen =>
    if depLabel d ∈ seen then dedupeAux rest seen
    else d :: dedupeAux rest (depLabel d :: seen)

/-- `collectDepsFromLock` (src/index.js lines 73-111): extract from the
flat `packages` mapping when present, additionally walk the recursive
`dependencies` tree when `packages` is absent or empty, then dedupe. -/
def collectDepsFromLock (lock : Lock) : List DepRecord :=
  let flatOut := match lock.packages with
    | some pkgs => collectFlat pkgs
    | none => []
  let treeOut :=
    if packagesEmptyOrAbsent lock then
      match lock.dependencies with
      | some f => walkForest f
      | none => []
    else []
  dedupeAux (flatOut ++ treeOut) []

/-- The I/O collaborators of one evaluation run, as oracles:
`regexValid p` models `new RegExp(p)` not throwing; `regexTest p t` models
`re.test(t)` for the compiled pattern; `fileExists` models the
`fs.existsSync`-based check of src/index.js lines 41-45; `validRange`
models the truthiness of `semver.validRange`; `coerce v` models
`semver.coerce(v)?.version` (the canonical three-component form, `none`
when coercion fails); `satisfies v r` models
`semver.satisfies(v, r, { includePrerelease: true })`; `lockResult`
models the outcome of `readPackageLock()`. -/
structure Env where
  regexValid : String → Bool
  regexTest : String → String → Bool
  fileExists : String → Bool
  validRange : String → Bool
  coerce : String → Option String
  satisfies : String → String → Bool
  lockResult : LockResult

/-- JavaScript `Array.prototype.join(sep)`. -/
def joinList (sep : String) : List String → String
  | [] => ""
  | [s] => s
  | s :: rest => s ++ sep ++ joinList sep rest

/-- The violation pushed for an absent configuration
(src/index.js lines 192-197). -/
def configMissingViolation : Violation :=
  { ruleId := "config_missing",
    severity := "warn",
    message := "No policy config found. This run did not enforce any rules.",
    howToFix := "Add a .repo-policy.yml file to the repo root (or set input config_path)." }

/-- The violation pushed for an uncompilable title pattern
(src/index.js lines 208-213). -/
def titleRegexInvalidViolation (titleRegex : String) : Violation :=
  { ruleId := "title_regex_invalid",
    severity := "error",
    message := "Configured pull_request.title_regex is not a valid RegExp: `" ++ titleRegex ++ "`",
    howToFix := "Fix the regex in .repo-policy.yml (JS RegExp syntax, without surrounding / /)." }

/-- The violation pushed for a non-matching PR title
(src/index.js lines 218-223). -/
def prTitleRegexViolation (titleRegex prTitle : String) : Violation :=
  { ruleId := "pr_title_regex",
    severity := "error",
    message := "PR title did not match `" ++ titleRegex ++ "`. Current title: “" ++ prTitle ++ "”",
    howToFix := "Rename the PR to match the required pattern." }

/-- The violation pushed for missing required files
(src/index.js lines 232-237). -/
def requiredFilesViolation (missing : List String) : Violation :=
  { ruleId := "required_files",
    severity := "error",
    message := "Missing required file(s): " ++
      joinList (", ") (missing.map (fun m => "`" ++ m ++ "`")),
    howToFix := "Add the missing files at the repo root, or remove them from repo.required_files." }

/-- The violation pushed when the lock manifest is absent (`isMissing`)
or unparseable (src/index.js lines 248-259). -/
def packageLockMissingViolation (isMissing : Bool) : Violation :=
  { ruleId := "package_lock_missing",
    severity := "warn",
    message :=
      if isMissing then
        "dependencies.deny is configured but package-lock.json was not found. Dependency checks were skipped."
      else
        "dependencies.deny is configured but package-lock.json could not be parsed. Dependency checks were skipped.",
    howToFix :=
      if isMissing then
        "Commit a package-lock.json (npm install) or remove dependencies.deny."
      else
        "Fix package-lock.json (valid JSON) or regenerate it with npm install." }

/-- The violation pushed for a deny rule with an invalid semver range
(src/index.js lines 270-275). -/
def invalidRangeViolation (rawRule : String) : Violation :=
  { ruleId := "dependency_denylist_invalid",
    severity := "error",
    message := "Invalid semver range in dependencies.deny: `" ++ rawRule ++ "`",
    howToFix := "Use a valid semver range (e.g. <1.2.3, >=1 <2, ^1.5.0) or remove the range." }

/-- The single aggregated violation for banned dependencies
(src/index.js lines 307-312). -/
def denylistViolation (banned : List String) : Violation :=
  { ruleId := "dependency_denylist",
    severity := "error",
    message := "Disallowed dependencies found: " ++
      joinList (", ") (banned.map (fun b => "`" ++ b ++ "`")),
    howToFix := "Remove or upgrade the dependency, or update dependencies.deny." }

/-- A validated deny rule kept for enforcement
(src/index.js line 280). -/
structure ParsedRule where
  rawRule : String
  name : String
  range : Option String
deriving DecidableEq

/-- The rule pre-parsing and validation loop of src/index.js lines
264-281, returning the invalid-range violations (in rule order) and the
rules kept for enforcement (in rule order).  Rules with a falsy parsed
name are skipped; rules with a non-null range failing `validRange`
produce a violation and are excluded. -/
def parseRulesAux (env : Env) : List String → List Violation × List ParsedRule
  | [] => ([], [])
  | rawRule :: rest =>
    let pd := parseDenyRule rawRule
    let tail := parseRulesAux env rest
    if pd.name = "" then tail
    else
      match pd.range with
      | some rg =>
        if env.validRange rg then
          (tail.1, { rawRule := rawRule, name := pd.name, range := some rg } :: tail.2)
        else (invalidRangeViolation rawRule :: tail.1, tail.2)
      | none => (tail.1, { rawRule := rawRule, name := pd.name, range := none } :: tail.2)

/-- The per-(rule, dependency) matching step of the enforcement loop
(src/index.js lines 288-303), returning the pushed banned label when the
pair matches: names must be equal; a rangeless rule always matches; a
ranged rule matches when the coerced version exists and satisfies the
range; a non-coercible version is skipped. -/
def ruleMatchLabel (env : Env) (rule : ParsedRule) (dep : DepRecord) : Option String :=
  if dep.name = rule.name then
    match rule.range with
    | none => some (depLabel dep)
    | some rg =>
      match env.coerce dep.version with
      | some cv =>
        if env.satisfies cv rg then
          some (depLabel dep ++ " (matches " ++ rule.rawRule ++ ")")
        else none
      | none => none
  else none

/-- The `banned` array of src/index.js lines 286-304: all matching
labels, rules outermost, dependencies innermost (the source's nesting
order). -/
def computeBanned (env : Env) (rules : List ParsedRule) (deps : List DepRecord) : List String :=
  rules.flatMap (fun r => deps.filterMap (fun d => ruleMatchLabel env r d))

/-- The dependency-denylist block of `compileViolations` (src/index.js
lines 241-316), threaded over the violations accumulated so far, since
the invalid-rule guard of line 284 scans the whole accumulated list. -/
def denyBlock (env : Env) (cfg : Config) (acc : List Violation) : List Violation :=
  match truthyList cfg.deny with
  | none => acc
  | some denyDeps =>
    match env.lockResult with
    | LockResult.missing => acc ++ [packageLockMissingViolation true]
    | LockResult.invalidJson => acc ++ [packageLockMissingViolation false]
    | LockResult.ok lock =>
      let parsed := parseRulesAux env denyDeps
      let acc2 := acc ++ parsed.1
      if acc2.any (fun v => decide (v.ruleId = "dependency_denylist_invalid")) then acc2
      else
        match computeBanned env parsed.2 (collectDepsFromLock lock) with
        | [] => acc2
        | b :: bs => acc2 ++ [denylistViolation (b :: bs)]

/-- The violations the dependency-denylist block appends on its own: the
same computation as `denyBlock`, stated without the accumulated prefix
(the prefix never carries the `dependency_denylist_invalid` rule id, so
the two agree; see `denyBlock_eq_append`). -/
def denyTail (env : Env) (cfg : Config) : List Violation :=
  match truthyList cfg.deny with
  | none => []
  | some denyDeps =>
    match env.lockResult with
    | LockResult.missing => [packageLockMissingViolation true]
    | LockResult.invalidJson => [packageLockMissingViolation false]
    | LockResult.ok lock =>
      let parsed := parseRulesAux env denyDeps
      if parsed.1 = [] then
        match computeBanned env parsed.2 (collectDepsFromLock lock) with
        | [] => []
        | b :: bs => [denylistViolation (b :: bs)]
      else parsed.1

/-- The title-regex block of `compileViolations` (src/index.js lines
202-225): `Except.error` models the early `return violations` after an
uncompilable pattern. -/
def titleStep (env : Env) (cfg : Config) (prTitle : String) : Except Violation (List Violation) :=
  match truthyStr cfg.title_regex with
  | some tr =>
    if env.regexValid tr then
      Except.ok (if env.regexTest tr prTitle then [] else [prTitleRegexViolation tr prTitle])
    else Except.error (titleRegexInvalidViolation tr)
  | none => Except.ok []

/-- The title violations of a run whose pattern compiled (the
`Except.ok` payload of `titleStep`). -/
def titleViolations (env : Env) (cfg : Config) (prTitle : String) : List Violation :=
  match truthyStr cfg.title_regex with
  | some tr => if env.regexTest tr prTitle then [] else [prTitleRegexViolation tr prTitle]
  | none => []

/-- Whether the run does not end early with `title_regex_invalid`: either
no truthy pattern is configured, or the configured pattern compiles. -/
def titleOk (env : Env) (cfg : Config) : Bool :=
  match truthyStr cfg.title_regex with
  | some tr => env.regexValid tr
  | none => true

/-- The required-files block of `compileViolations` (src/index.js lines
228-239). -/
def requiredFilesViolations (env : Env) (cfg : Config) : List Violation :=
  match cfg.required_files with
  | some files =>
    if files = [] then []
    else
      let missing := files.filter (fun f => !(env.fileExists f))
      if missing = [] then [] else [requiredFilesViolation missing]
  | none => []

/-- `compileViolations` (src/index.js lines 188-320).  An absent
configuration and an uncompilable title pattern both return early, before
`applySeverityOverrides`; otherwise the title, required-files and
dependency-denylist blocks accumulate violations in order and the
overrides are applied to the final list. -/
def compileViolations (env : Env) (config : Option Config) (prTitle : String) : List Violation :=
  match config with
  | none => [configMissingViolation]
  | some cfg =>
    match titleStep env cfg prTitle with
    | Except.error v => [v]
    | Except.ok titleVs =>
      applySeverityOverrides (some cfg)
        (denyBlock env cfg (titleVs ++ requiredFilesViolations env cfg))

/-- The status computation of `run` (src/index.js lines 340-346):
`failing ? "fail" : hasErrors || hasWarns ? "warn" : "pass"`, with
`failing = config ? shouldFail(config, violations) : false`. -/
def overallStatus (config : Option Config) (violations : List Violation) : String :=
  let hasErrors := violations.any (fun v => decide (v.severity = "error"))
  let hasWarns := violations.any (fun v => decide (v.severity = "warn"))
  let failing := match config with
    | some _ => shouldFail config violations
    | none => false
  if failing then "fail" else if hasErrors || hasWarns then "warn" else "pass"

/-- One whole evaluation of `run` (src/index.js lines 340-346): the
violations compiled for the inputs, followed by the status computation. -/
def runStatus (env : Env) (config : Option Config) (prTitle : String) : String :=
  overallStatus config (compileViolations env config prTitle)

/-- The configuration value produced for a present config file whose YAML
loads to a falsy value (`yaml.load(raw) || {}` in src/index.js line 38):
an object with none of the recognized fields. -/
def emptyConfig : Config :=
  { severity_overrides := [],
    fail_on := none,
    title_regex := none,
    required_files := none,
    deny := none }

/-- `safeLoadConfig` (src/index.js lines 34-39) with its filesystem and
YAML collaborators as oracles: `fileFound` models `fs.existsSync`,
`parsed` the result of `yaml.load` (with `none` for a falsy result such
as an empty document).  A present file always yields a present
configuration. -/
def safeLoadConfig (fileFound : Bool) (parsed : Option Config) : Option Config × Bool :=
  if fileFound then
    (some (match parsed with
      | some cfg => cfg
      | none => emptyConfig), true)
  else (none, false)

/-- Whether a deny-rule string fails range validation: its parsed range
is present and rejected by the semver validator.  These are exactly the
rules that produce `dependency_denylist_invalid` violations. -/
def badRuleP (env : Env) (raw : String) : Bool :=
  match (parseDenyRule raw).range with
  | some rg => !(env.validRange rg)
  | none => false

/-- Specification-side matching predicate for one deny-rule string
against one resolved dependency: names agree and either the rule is
rangeless (ban all versions) or the dependency's version coerces and the
coerced form satisfies the range. -/
def bansDepP (env : Env) (raw : String) (dep : DepRecord) : Prop :=
  (parseDenyRule raw).name ≠ "" ∧
  dep.name = (parseDenyRule raw).name ∧
  ((parseDenyRule raw).range = none ∨
    ∃ rg cv, (parseDenyRule raw).range = some rg ∧
      env.coerce dep.version = some cv ∧ env.satisfies cv rg = true)

/-- Specification-side occurrence of a dependency record anywhere in a
recursive dependencies forest, at any depth: at the head node (when its
version is truthy), inside the head node's children, or further along. -/
inductive ForestOccurs : DepRecord → DepForest → Prop where
  | head (name v : String) (children rest : DepForest) :
      v ≠ "" →
      ForestOccurs { name := name, version := v } (DepForest.consNode name (some v) children rest)
  | child (r : DepRecord) (name : String) (ver : Option String) (children rest : DepForest) :
      ForestOccurs r children →
      ForestOccurs r (DepForest.consNode name ver children rest)
  | tailNode (r : DepRecord) (name : String) (ver : Option String) (children rest : DepForest) :
      ForestOccurs r rest →
      ForestOccurs r (DepForest.consNode name ver children rest)
  | tailNull (r : DepRecord) (name : String) (rest : DepForest) :
      ForestOccurs r rest →
      ForestOccurs r (DepForest.consNull name rest)

/-! ## Concrete configurations and environments used to instantiate the
claims on explicit inputs -/

/-- A configuration whose only set field is `fail_on: warn`. -/
def warnThresholdConfig : Config :=
  { severity_overrides := [], fail_on := some ("warn"), title_regex := none,
    required_files := none, deny := none }

/-- A configuration whose only set field is `fail_on: error`. -/
def errorThresholdConfig : Config :=
  { severity_overrides := [], fail_on := some ("error"), title_regex := none,
    required_files := none, deny := none }

/-- A configuration with `fail_on: warn` and a one-entry deny list. -/
def failOnWarnDenyConfig : Config :=
  { severity_overrides := [], fail_on := some ("warn"), title_regex := none,
    required_files := none, deny := some ([("left-pad")]) }

/-- An environment whose package-lock read finds no file; the other
oracles are inert. -/
def missingLockEnv : Env :=
  { regexValid := fun _ => true, regexTest := fun _ _ => true,
    fileExists := fun _ => true, validRange := fun _ => true,
    coerce := fun _ => none, satisfies := fun _ _ => false,
    lockResult := LockResult.missing }

/-- An environment whose RegExp oracle rejects every pattern (modelling a
pattern on which `new RegExp` throws); the other oracles are inert. -/
def c1CounterEnv : Env :=
  { regexValid := fun _ => false, regexTest := fun _ _ => true,
    fileExists := fun _ => true, validRange := fun _ => true,
    coerce := fun _ => none, satisfies := fun _ _ => false,
    lockResult := LockResult.missing }

/-- A configuration with an uncompilable title pattern and a severity
override mapping `title_regex_invalid` to warn. -/
def c1CounterConfig : Config :=
  { severity_overrides := [("title_regex_invalid", "warn")], fail_on := none,
    title_regex := some ("("), required_files := none, deny := none }

/-- An environment in which every pattern compiles and no file exists. -/
def c1WitnessEnv : Env :=
  { regexValid := fun _ => true, regexTest := fun _ _ => true,
    fileExists := fun _ => false, validRange := fun _ => true,
    coerce := fun _ => none, satisfies := fun _ _ => false,
    lockResult := LockResult.missing }

/-- A configuration requiring a LICENSE file, with a severity override
mapping `required_files` to warn. -/
def c1WitnessConfig : Config :=
  { severity_overrides := [("required_files", "warn")], fail_on := none,
    title_regex := none, required_files := some ([("LICENSE")]), deny := none }

/-- The `required_files` violation for a missing LICENSE after the warn
override has been applied. -/
def overriddenRequiredFilesViolation : Violation :=
  { requiredFilesViolation ([("LICENSE")]) with severity := "warn" }

/-- A lock manifest in flat registry form with one entry whose name is
derived from its installation path. -/
def c8FlatLock : Lock :=
  { packages := some [(("node_modules/a"), PkgEntry.info none (some ("1.0.0")))],
    dependencies := none }

/-- A two-level recursive dependencies forest: `b` is nested under `a`. -/
def c8TreeForest : DepForest :=
  DepForest.consNode ("a") (some ("1.0.0"))
    (DepForest.consNode ("b") (some ("2.0.0")) DepForest.nil DepForest.nil)
    DepForest.nil

/-- A lock manifest in recursive tree form only. -/
def c8TreeLock : Lock :=
  { packages := none, dependencies := some c8TreeForest }

/-- A record whose name contains the separator character. -/
def collidingRecA : DepRecord := { name := "a@b", version := "c" }

/-- A distinct record with the same `name@version` key as
`collidingRecA`. -/
def collidingRecB : DepRecord := { name := "a", version := "b@c" }

/-- A flat packages mapping listing the two colliding records, A first. -/
def c4CounterPackages : List (String × PkgEntry) :=
  [(("p1"), PkgEntry.info (some ("a@b")) (some ("c"))),
   (("p2"), PkgEntry.info (some ("a")) (some ("b@c")))]

/-- A dependencies forest listing the same two records, B first. -/
def c4CounterForest : DepForest :=
  DepForest.consNode ("a") (some ("b@c")) DepForest.nil
    (DepForest.consNode ("a@b") (some ("c")) DepForest.nil DepForest.nil)

/-- A two-element set of dependency records with collision-free keys. -/
def c4Pairs : List DepRecord :=
  [{ name := "a", version := "1.0.0" }, { name := "b", version := "2.0.0" }]

/-- A flat packages mapping encoding `c4Pairs`. -/
def c4WitnessPackages : List (String × PkgEntry) :=
  [(("node_modules/a"), PkgEntry.info none (some ("1.0.0"))),
   (("node_modules/b"), PkgEntry.info none (some ("2.0.0")))]

/-- A nested dependencies forest encoding `c4Pairs` with `b` below `a`. -/
def c4WitnessForest : DepForest :=
  DepForest.consNode ("a") (some ("1.0.0"))
    (DepForest.consNode ("b") (some ("2.0.0")) DepForest.nil DepForest.nil)
    DepForest.nil

/-- A lock manifest resolving lodash at 4.17.20. -/
def c2WitnessLock : Lock :=
  { packages := some [(("node_modules/lodash"), PkgEntry.info none (some ("4.17.20")))],
    dependencies := none }

/-- An environment whose semver oracle accepts exactly the range
"<4.17.21", coerces every version to itself, and reports that 4.17.20
satisfies that range. -/
def c2WitnessEnv : Env :=
  { regexValid := fun _ => true, regexTest := fun _ _ => true,
    fileExists := fun _ => true,
    validRange := fun r => decide (r = "<4.17.21"),
    coerce := fun v => some v,
    satisfies := fun v r => decide (v = "4.17.20" ∧ r = "<4.17.21"),
    lockResult := LockResult.ok c2WitnessLock }

/-- A deny list holding one invalid-range rule and one valid rule that
matches the resolved lodash dependency. -/
def c2WitnessConfig : Config :=
  { severity_overrides := [], fail_on := none, title_regex := none,
    required_files := none,
    deny := some [("pkg@not-a-range"), ("lodash@<4.17.21")] }

/-- A lock resolving lodash at the banned version 4.17.20. -/
def c6MatchLock : Lock :=
  { packages := some [(("node_modules/lodash"), PkgEntry.info none (some ("4.17.20")))],
    dependencies := none }

/-- A lock resolving lodash at the allowed version 4.17.21. -/
def c6NoMatchLock : Lock :=
  { packages := some [(("node_modules/lodash"), PkgEntry.info none (some ("4.17.21")))],
    dependencies := none }

/-- A semver oracle accepting the range "<4.17.21", coercing versions to
themselves, and satisfied only by 4.17.20; lock = lodash@4.17.20. -/
def c6MatchEnv : Env :=
  { regexValid := fun _ => true, regexTest := fun _ _ => true,
    fileExists := fun _ => true,
    validRange := fun r => decide (r = "<4.17.21"),
    coerce := fun v => some v,
    satisfies := fun v r => decide (v = "4.17.20" ∧ r = "<4.17.21"),
    lockResult := LockResult.ok c6MatchLock }

/-- The same semver oracle with lock = lodash@4.17.21. -/
def c6NoMatchEnv : Env :=
  { regexValid := fun _ => true, regexTest := fun _ _ => true,
    fileExists := fun _ => true,
    validRange := fun r => decide (r = "<4.17.21"),
    coerce := fun v => some v,
    satisfies := fun v r => decide (v = "4.17.20" ∧ r = "<4.17.21"),
    lockResult := LockResult.ok c6NoMatchLock }

/-- A deny list with the single valid rule "lodash@<4.17.21". -/
def c6Config : Config :=
  { severity_overrides := [], fail_on := none, title_regex := none,
    required_files := none, deny := some [("lodash@<4.17.21")] }

/-! ## Helper lemmas about the severity model and override application -/

theorem normalizeSeverity_cases (s : String) :
    normalizeSeverity s = "warn" ∨ normalizeSeverity s = "error" := by
  unfold normalizeSeverity
  by_cases h : s = "warn" ∨ s = "warning" <;> simp [h]

theorem overrideOne_ruleId (ov : List (String × String)) (v : Violation) :
    (overrideOne ov v).ruleId = v.ruleId := by
  unfold overrideOne
  cases truthyLookup ov v.ruleId <;> rfl

theorem overrideOne_of_truthy (ov : List (String × String)) (v : Violation) (s : String)
    (h : truthyLookup ov v.ruleId = some s) :
    (overrideOne ov v).severity = normalizeSeverity s := by
  unfold overrideOne
  rw [h]

theorem overrideOne_of_none (ov : List (String × String)) (v : Violation)
    (h : truthyLookup ov v.ruleId = none) : overrideOne ov v = v := by
  unfold overrideOne
  rw [h]

theorem mem_applySeverityOverrides (cfg : Config) (l : List Violation) (v : Violation)
    (hv : v ∈ applySeverityOverrides (some cfg) l) :
    ∃ v0 ∈ l, v = overrideOne cfg.severity_overrides v0 := by
  unfold applySeverityOverrides at hv
  obtain ⟨v0, h1, h2⟩ := List.mem_map.mp hv
  exact ⟨v0, h1, h2.symm⟩

/-! ## Helper lemmas about the rule blocks -/

theorem titleViolations_ruleId (env : Env) (cfg : Config) (prTitle : String) :
    ∀ v ∈ titleViolations env cfg prTitle, v.ruleId = "pr_title_regex" := by
  intro v hv
  unfold titleViolations at hv
  cases htr : truthyStr cfg.title_regex with
  | none => rw [htr] at hv; simp at hv
  | some tr =>
    rw [htr] at hv
    by_cases ht : env.regexTest tr prTitle <;> simp [ht] at hv
    subst hv; rfl

theorem titleViolations_severity (env : Env) (cfg : Config) (prTitle : String) :
    ∀ v ∈ titleViolations env cfg prTitle, v.severity = "error" := by
  intro v hv
  unfold titleViolations at hv
  cases htr : truthyStr cfg.title_regex with
  | none => rw [htr] at hv; simp at hv
  | some tr =>
    rw [htr] at hv
    by_cases ht : env.regexTest tr prTitle <;> simp [ht] at hv
    subst hv; rfl

theorem requiredFilesViolations_ruleId (env : Env) (cfg : Config) :
    ∀ v ∈ requiredFilesViolations env cfg, v.ruleId = "required_files" := by
  intro v hv
  unfold requiredFilesViolations at hv
  cases hrf : cfg.required_files with
  | none => rw [hrf] at hv; simp at hv
  | some files =>
    rw [hrf] at hv
    by_cases hf : files = []
    · simp [hf] at hv
    · simp only [if_neg hf] at hv
      by_cases hm : files.filter (fun f => !(env.fileExists f)) = [] <;> simp [hm] at hv
      subst hv; rfl

theorem requiredFilesViolations_severity (env : Env) (cfg : Config) :
    ∀ v ∈ requiredFilesViolations env cfg, v.severity = "error" := by
  intro v hv
  unfold requiredFilesViolations at hv
  cases hrf : cfg.required_files with
  | none => rw [hrf] at hv; simp at hv
  | some files =>
    rw [hrf] at hv
    by_cases hf : files = []
    · simp [hf] at hv
    · simp only [if_neg hf] at hv
      by_cases hm : files.filter (fun f => !(env.fileExists f)) = [] <;> simp [hm] at hv
      subst hv; rfl

theorem parseRulesAux_fst_mem (env : Env) (l : List String) :
    ∀ v ∈ (parseRulesAux env l).1, ∃ raw, v = invalidRangeViolation raw := by
  induction l with
  | nil => intro v hv; simp [parseRulesAux] at hv
  | cons raw rest ih =>
    intro v hv
    unfold parseRulesAux at hv
    by_cases hn : (parseDenyRule raw).name = ""
    · rw [if_pos hn] at hv
      exact ih v hv
    · rw [if_neg hn] at hv
      cases hr : (parseDenyRule raw).range with
      | none => rw [hr] at hv; exact ih v hv
      | some rg =>
        rw [hr] at hv
        by_cases hvr : env.validRange rg
        · simp only [hvr, if_pos] at hv
          exact ih v hv
        · simp only [hvr, Bool.false_eq_true, if_neg, not_false_iff, List.mem_cons] at hv
          rcases hv with h | h
          · exact ⟨raw, h⟩
          · exact ih v h

theorem parseRulesAux_fst_ruleId (env : Env) (l : List String) :
    ∀ v ∈ (parseRulesAux env l).1, v.ruleId = "dependency_denylist_invalid" := by
  intro v hv
  obtain ⟨raw, rfl⟩ := parseRulesAux_fst_mem env l v hv
  rfl

theorem parseRulesAux_fst_severity (env : Env) (l : List String) :
    ∀ v ∈ (parseRulesAux env l).1, v.severity = "error" := by
  intro v hv
  obtain ⟨raw, rfl⟩ := parseRulesAux_fst_mem env l v hv
  rfl

theorem denyTail_ruleId (env : Env) (cfg : Config) :
    ∀ v ∈ denyTail env cfg,
      v.ruleId = "package_lock_missing" ∨ v.ruleId = "dependency_denylist_invalid" ∨
        v.ruleId = "dependency_denylist" := by
  intro v hv
  unfold denyTail at hv
  cases hd : truthyList cfg.deny with
  | none => rw [hd] at hv; simp at hv
  | some denyDeps =>
    rw [hd] at hv
    cases hl : env.lockResult with
    | missing => rw [hl] at hv; simp at hv; subst hv; left; rfl
    | invalidJson => rw [hl] at hv; simp at hv; subst hv; left; rfl
    | ok lock =>
      rw [hl] at hv
      simp only at hv
      by_cases hp : (parseRulesAux env denyDeps).1 = []
      · rw [if_pos hp] at hv
        cases hb : computeBanned env (parseRulesAux env denyDeps).2 (collectDepsFromLock lock) with
        | nil => rw [hb] at hv; simp at hv
        | cons b bs => rw [hb] at hv; simp at hv; subst hv; right; right; rfl
      · rw [if_neg hp] at hv
        right; left; exact parseRulesAux_fst_ruleId env denyDeps v hv

theorem denyTail_severity (env : Env) (cfg : Config) :
    ∀ v ∈ denyTail env cfg, v.severity = "warn" ∨ v.severity = "error" := by
  intro v hv
  unfold denyTail at hv
  cases hd : truthyList cfg.deny with
  | none => rw [hd] at hv; simp at hv
  | some denyDeps =>
    rw [hd] at hv
    cases hl : env.lockResult with
    | missing => rw [hl] at hv; simp at hv; subst hv; left; rfl
    | invalidJson => rw [hl] at hv; simp at hv; subst hv; left; rfl
    | ok lock =>
      rw [hl] at hv
      simp only at hv
      by_cases hp : (parseRulesAux env denyDeps).1 = []
      · rw [if_pos hp] at hv
        cases hb : computeBanned env (parseRulesAux env denyDeps).2 (collectDepsFromLock lock) with
        | nil => rw [hb] at hv; simp at hv
        | cons b bs => rw [hb] at hv; simp at hv; subst hv; right; rfl
      · rw [if_neg hp] at hv
        right; exact parseRulesAux_fst_severity env denyDeps v hv

theorem denyBlock_eq_append (env : Env) (cfg : Config) (acc : List Violation)
    (hacc : ∀ v ∈ acc, v.ruleId ≠ "dependency_denylist_invalid") :
    denyBlock env cfg acc = acc ++ denyTail env cfg := by
  unfold denyBlock denyTail
  cases hd : truthyList cfg.deny with
  | none => simp
  | some denyDeps =>
    cases hl : env.lockResult with
    | missing => rfl
    | invalidJson => rfl
    | ok lock =>
      simp only
      have hanyacc : acc.any (fun v => decide (v.ruleId = "dependency_denylist_invalid")) = false := by
        rw [List.any_eq_false]
        intro v hv
        simpa using hacc v hv
      cases hp : (parseRulesAux env denyDeps).1 with
      | nil =>
        cases hb : computeBanned env (parseRulesAux env denyDeps).2 (collectDepsFromLock lock) with
        | nil => simp [hanyacc, hb]
        | cons b bs => simp [hanyacc, hb]
      | cons w ws =>
        have hw : w.ruleId = "dependency_denylist_invalid" := by
          apply parseRulesAux_fst_ruleId env denyDeps
          rw [hp]; exact List.mem_cons_self w ws
        have hany : (acc ++ w :: ws).any (fun v => decide (v.ruleId = "dependency_denylist_invalid")) = true := by
          rw [List.any_eq_true]
          exact ⟨w, by simp, by simp [hw]⟩
        simp [hany]

theorem compileViolations_normal (env : Env) (cfg : Config) (prTitle : String)
    (h : titleOk env cfg = true) :
    compileViolations env (some cfg) prTitle =
      applySeverityOverrides (some cfg)
        (denyBlock env cfg (titleViolations env cfg prTitle ++ requiredFilesViolations env cfg)) := by
  unfold compileViolations titleStep titleViolations
  unfold titleOk at h
  cases htr : truthyStr cfg.title_regex with
  | none => simp [htr]
  | some tr =>
    rw [htr] at h
    simp only [] at h
    simp [htr, h]

theorem compileViolations_titleInvalid (env : Env) (cfg : Config) (prTitle : String)
    (tr : String) (htr : truthyStr cfg.title_regex = some tr)
    (h : env.regexValid tr = false) :
    compileViolations env (some cfg) prTitle = [titleRegexInvalidViolation tr] := by
  unfold compileViolations titleStep
  simp only [htr]
  simp [h]

theorem compileViolations_decomp (env : Env) (cfg : Config) (prTitle : String)
    (h : titleOk env cfg = true) :
    compileViolations env (some cfg) prTitle =
      applySeverityOverrides (some cfg)
        ((titleViolations env cfg prTitle ++ requiredFilesViolations env cfg) ++ denyTail env cfg) := by
  rw [compileViolations_normal env cfg prTitle h, denyBlock_eq_append]
  intro v hv
  rcases List.mem_append.mp hv with h1 | h2
  · rw [titleViolations_ruleId env cfg prTitle v h1]; decide
  · rw [requiredFilesViolations_ruleId env cfg v h2]; decide

theorem compileViolations_severity (env : Env) (config : Option Config) (prTitle : String) :
    ∀ v ∈ compileViolations env config prTitle, v.severity = "warn" ∨ v.severity = "error" := by
  intro v hv
  cases config with
  | none =>
    unfold compileViolations at hv
    simp at hv
    subst hv; left; rfl
  | some cfg =>
    by_cases hok : titleOk env cfg = true
    · rw [compileViolations_decomp env cfg prTitle hok] at hv
      obtain ⟨v0, hv0, rfl⟩ := mem_applySeverityOverrides cfg _ v hv
      cases htl : truthyLookup cfg.severity_overrides v0.ruleId with
      | some s =>
        have hsev := overrideOne_of_truthy cfg.severity_overrides v0 s htl
        rw [hsev]
        exact normalizeSeverity_cases s
      | none =>
        rw [overrideOne_of_none cfg.severity_overrides v0 htl]
        rcases List.mem_append.mp hv0 with hbase | htail
        · rcases List.mem_append.mp hbase with h1 | h2
          · right; exact titleViolations_severity env cfg prTitle v0 h1
          · right; exact requiredFilesViolations_severity env cfg v0 h2
        · exact denyTail_severity env cfg v0 htail
    · unfold titleOk at hok
      cases htr : truthyStr cfg.title_regex with
      | none => rw [htr] at hok; simp at hok
      | some tr =>
        rw [htr] at hok
        have hrv : env.regexValid tr = false := by
          cases hb : env.regexValid tr
          · rfl
          · exact absurd hb hok
        rw [compileViolations_titleInvalid env cfg prTitle tr htr hrv] at hv
        simp at hv
        subst hv; right; rfl

/-! ## Verdict lemmas -/

theorem shouldFail_iff (config : Option Config) (violations : List Violation) :
    shouldFail config violations = true ↔
      ∃ v ∈ violations,
        severityRank (normalizeSeverity (failOnRaw config)) ≤ severityRank v.severity := by
  simp only [shouldFail]
  rw [List.any_eq_true]
  constructor
  · rintro ⟨v, hv, hd⟩
    exact ⟨v, hv, of_decide_eq_true hd⟩
  · rintro ⟨v, hv, hd⟩
    exact ⟨v, hv, decide_eq_true hd⟩

theorem hasErrorsOrWarns_iff (l : List Violation)
    (hsev : ∀ v ∈ l, v.severity = "warn" ∨ v.severity = "error") :
    ((l.any (fun v => decide (v.severity = "error"))
        || l.any (fun v => decide (v.severity = "warn"))) = true) ↔ l ≠ [] := by
  constructor
  · intro h hl
    subst hl
    simp at h
  · intro hl
    cases l with
    | nil => exact absurd rfl hl
    | cons v rest =>
      rw [Bool.or_eq_true]
      rcases hsev v (List.mem_cons_self v rest) with hw | he
      · right
        rw [List.any_eq_true]
        exact ⟨v, List.mem_cons_self v rest, by simp [hw]⟩
      · left
        rw [List.any_eq_true]
        exact ⟨v, List.mem_cons_self v rest, by simp [he]⟩

/-- Claim C9: for every combination of well-formed inputs (any
configuration or its absence, any PR title, any oracle facts including
lock-manifest content or an absence signal), the evaluation is a total
function — `compileViolations` is a total Lean definition, so it
terminates and returns a violation list — and the derived verdict is one
of pass, warn, fail. -/
theorem c9_evaluation_total_verdict (env : Env) (config : Option Config) (prTitle : String) :
    runStatus env config prTitle = "pass" ∨ runStatus env config prTitle = "warn" ∨
      runStatus env config prTitle = "fail" := by
  unfold runStatus overallStatus
  dsimp only
  split_ifs with h1 h2
  · right; right; rfl
  · right; left; rfl
  · left; rfl

/-- Claim C10: a present-but-empty configuration object produces no
violations and verdict pass, while an absent configuration produces
exactly one config_missing warn violation; a present config file whose
YAML loads to a falsy value (such as an empty document) is treated as the
present empty object, not as absent. -/
theorem c10_empty_config_vs_absent (env : Env) (prTitle : String) :
    compileViolations env (some emptyConfig) prTitle = [] ∧
    runStatus env (some emptyConfig) prTitle = "pass" ∧
    compileViolations env none prTitle = [configMissingViolation] ∧
    configMissingViolation.ruleId = "config_missing" ∧
    configMissingViolation.severity = "warn" ∧
    (safeLoadConfig true none).1 = some emptyConfig := by
  exact ⟨rfl, rfl, rfl, rfl, rfl, rfl⟩

/-- Claim C7: `shouldFail` returns true exactly when some violation's
severity rank is at least the rank of the normalized configured fail
threshold (defaulting to error when unset); in particular threshold warn
with a warn-only list fails, and threshold error with the same list does
not. -/
theorem c7_shouldFail_threshold (config : Option Config) (violations : List Violation) :
    (shouldFail config violations = true ↔
      ∃ v ∈ violations,
        severityRank (normalizeSeverity (failOnRaw config)) ≤ severityRank v.severity) ∧
    shouldFail (some warnThresholdConfig) [configMissingViolation] = true ∧
    shouldFail (some errorThresholdConfig) [configMissingViolation] = false ∧
    normalizeSeverity (failOnRaw none) = "error" := by
  exact ⟨shouldFail_iff config violations, by decide, by decide, by decide⟩

/-- Claim C3 (amended): the reported overall status is "fail" exactly when
the configuration is present and some violation's severity rank reaches
the normalized fail threshold's rank (whether or not an error-severity
violation exists); "warn" exactly when violations exist but none reached
the threshold (or the configuration is absent); "pass" exactly when the
final violation list is empty. -/
theorem c3_overall_status_amended (env : Env) (config : Option Config) (prTitle : String) :
    (runStatus env config prTitle = "fail" ↔
      (config ≠ none ∧ ∃ v ∈ compileViolations env config prTitle,
        severityRank (normalizeSeverity (failOnRaw config)) ≤ severityRank v.severity)) ∧
    (runStatus env config prTitle = "warn" ↔
      (compileViolations env config prTitle ≠ [] ∧
        ¬(config ≠ none ∧ ∃ v ∈ compileViolations env config prTitle,
          severityRank (normalizeSeverity (failOnRaw config)) ≤ severityRank v.severity))) ∧
    (runStatus env config prTitle = "pass" ↔ compileViolations env config prTitle = []) := by
  cases config with
  | none =>
    have hsev := compileViolations_severity env none prTitle
    have hB := hasErrorsOrWarns_iff (compileViolations env none prTitle) hsev
    have hrun : runStatus env none prTitle =
        if (false = true) then "fail"
        else if ((compileViolations env none prTitle).any (fun v => decide (v.severity = "error"))
            || (compileViolations env none prTitle).any (fun v => decide (v.severity = "warn"))) = true
          then "warn" else "pass" := rfl
    rw [if_neg (by decide)] at hrun
    by_cases hl : compileViolations env none prTitle = []
    · have hBf : ((compileViolations env none prTitle).any (fun v => decide (v.severity = "error"))
          || (compileViolations env none prTitle).any (fun v => decide (v.severity = "warn"))) = false := by
        rw [hl]; rfl
      rw [hBf, if_neg (by decide)] at hrun
      rw [hrun]
      refine ⟨?_, ?_, ?_⟩
      · exact iff_of_false (by decide) (by rintro ⟨h, -⟩; exact h rfl)
      · exact iff_of_false (by decide) (by rintro ⟨h, -⟩; exact h hl)
      · exact iff_of_true rfl hl
    · have hBt := hB.mpr hl
      rw [hBt, if_pos rfl] at hrun
      rw [hrun]
      refine ⟨?_, ?_, ?_⟩
      · exact iff_of_false (by decide) (by rintro ⟨h, -⟩; exact h rfl)
      · exact iff_of_true rfl ⟨hl, by rintro ⟨h, -⟩; exact h rfl⟩
      · exact iff_of_false (by decide) hl
  | some cfg =>
    have hsev := compileViolations_severity env (some cfg) prTitle
    have hB := hasErrorsOrWarns_iff (compileViolations env (some cfg) prTitle) hsev
    have hrun : runStatus env (some cfg) prTitle =
        if (shouldFail (some cfg) (compileViolations env (some cfg) prTitle) = true) then "fail"
        else if ((compileViolations env (some cfg) prTitle).any (fun v => decide (v.severity = "error"))
            || (compileViolations env (some cfg) prTitle).any (fun v => decide (v.severity = "warn"))) = true
          then "warn" else "pass" := rfl
    by_cases hf : shouldFail (some cfg) (compileViolations env (some cfg) prTitle) = true
    · rw [hf, if_pos rfl] at hrun
      have hex := (shouldFail_iff (some cfg) (compileViolations env (some cfg) prTitle)).mp hf
      have hne : compileViolations env (some cfg) prTitle ≠ [] := by
        intro hl0
        rw [hl0] at hex
        simp at hex
      rw [hrun]
      refine ⟨?_, ?_, ?_⟩
      · exact iff_of_true rfl ⟨by simp, hex⟩
      · exact iff_of_false (by decide) (by rintro ⟨-, hcon⟩; exact hcon ⟨by simp, hex⟩)
      · exact iff_of_false (by decide) hne
    · have hf2 : shouldFail (some cfg) (compileViolations env (some cfg) prTitle) = false :=
        Bool.eq_false_iff.mpr hf
      rw [hf2, if_neg (by decide)] at hrun
      have hnex : ¬∃ v ∈ compileViolations env (some cfg) prTitle,
          severityRank (normalizeSeverity (failOnRaw (some cfg))) ≤ severityRank v.severity :=
        fun hex => hf ((shouldFail_iff (some cfg) (compileViolations env (some cfg) prTitle)).mpr hex)
      by_cases hl : compileViolations env (some cfg) prTitle = []
      · have hBf : ((compileViolations env (some cfg) prTitle).any (fun v => decide (v.severity = "error"))
            || (compileViolations env (some cfg) prTitle).any (fun v => decide (v.severity = "warn"))) = false := by
          rw [hl]; rfl
        rw [hBf, if_neg (by decide)] at hrun
        rw [hrun]
        refine ⟨?_, ?_, ?_⟩
        · exact iff_of_false (by decide) (by rintro ⟨-, hex⟩; exact hnex hex)
        · exact iff_of_false (by decide) (by rintro ⟨h, -⟩; exact h hl)
        · exact iff_of_true rfl hl
      · have hBt := hB.mpr hl
        rw [hBt, if_pos rfl] at hrun
        rw [hrun]
        refine ⟨?_, ?_, ?_⟩
        · exact iff_of_false (by decide) (by rintro ⟨-, hex⟩; exact hnex hex)
        · exact iff_of_true rfl ⟨hl, by rintro ⟨-, hex⟩; exact hnex hex⟩
        · exact iff_of_false (by decide) hl

/-- Claim C3 (counterexample): with `fail_on: warn` and a configured deny
list but no package-lock.json, the run's only violation is the
warn-severity `package_lock_missing` one, yet the reported overall status
is "fail" — so "fail" does not require that an error-severity violation
exists, contradicting the claim as stated. -/
theorem c3_counterexample :
    runStatus missingLockEnv (some failOnWarnDenyConfig) ("feat: x") = "fail" ∧
    compileViolations missingLockEnv (some failOnWarnDenyConfig) ("feat: x")
        = [packageLockMissingViolation true] ∧
    (packageLockMissingViolation true).severity ≠ "error" := by
  exact ⟨by decide, by decide, by decide⟩

/-- Claim C1 (amended): on runs that complete normally (a configuration is
present and the configured title pattern, if any, compiles), every
returned violation whose ruleId has a truthy (non-empty) entry in the
configured severity-overrides map ends up with severity equal to the
normalized override value.  Runs that end early with `config_missing` or
`title_regex_invalid` return before override application, and empty-string
override entries are ignored rather than normalized to error. -/
theorem c1_overrides_uniform_amended (env : Env) (cfg : Config) (prTitle : String)
    (htitle : titleOk env cfg = true) :
    ∀ v ∈ compileViolations env (some cfg) prTitle, ∀ s,
      truthyLookup cfg.severity_overrides v.ruleId = some s →
      v.severity = normalizeSeverity s := by
  intro v hv s hs
  rw [compileViolations_decomp env cfg prTitle htitle] at hv
  obtain ⟨v0, hv0, rfl⟩ := mem_applySeverityOverrides cfg _ v hv
  rw [overrideOne_ruleId cfg.severity_overrides v0] at hs
  exact overrideOne_of_truthy cfg.severity_overrides v0 s hs

/-- Claim C1 (counterexample): a run that ends early with
`title_regex_invalid` returns that violation with its original error
severity even though the configured severity-overrides map holds a warn
entry for its ruleId — overrides are not applied on early-return runs, so
they are not applied uniformly to every returned list. -/
theorem c1_counterexample :
    compileViolations c1CounterEnv (some c1CounterConfig) ("feat: ok")
        = [titleRegexInvalidViolation ("(")] ∧
    truthyLookup c1CounterConfig.severity_overrides ("title_regex_invalid") = some ("warn") ∧
    (titleRegexInvalidViolation ("(")).severity = "error" ∧
    normalizeSeverity ("warn") ≠ "error" := by
  exact ⟨by decide, by decide, by decide, by decide⟩

/-- Witness for claim C1: a concrete normally-completing run in which the
`required_files` violation's severity has been replaced by the normalized
warn override. -/
theorem c1_witness :
    titleOk c1WitnessEnv c1WitnessConfig = true ∧
    overriddenRequiredFilesViolation.severity = normalizeSeverity ("warn") :=
  ⟨by decide,
    c1_overrides_uniform_amended c1WitnessEnv c1WitnessConfig ("feat") (by decide)
      overriddenRequiredFilesViolation (by decide) ("warn") (by decide)⟩

/-! ## Lemmas about the deny-rule parser -/

theorem lastIndexOfAmp_none (l : List Char) (h : lastIndexOfAmp l = none) :
    ∀ j, l.get? j ≠ some '@' := by
  induction l with
  | nil => intro j; simp
  | cons c cs ih =>
    intro j
    unfold lastIndexOfAmp at h
    cases hcs : lastIndexOfAmp cs with
    | some i => rw [hcs] at h; simp at h
    | none =>
      rw [hcs] at h
      by_cases hc : c = '@'
      · rw [if_pos hc] at h; simp at h
      · cases j with
        | zero => simpa using hc
        | succ j => simpa using ih hcs j

theorem lastIndexOfAmp_spec (l : List Char) (i : Nat) (h : lastIndexOfAmp l = some i) :
    l.get? i = some '@' ∧ ∀ j, i < j → l.get? j ≠ some '@' := by
  induction l generalizing i with
  | nil => simp [lastIndexOfAmp] at h
  | cons c cs ih =>
    unfold lastIndexOfAmp at h
    cases hcs : lastIndexOfAmp cs with
    | some k =>
      rw [hcs] at h
      simp at h
      subst h
      obtain ⟨h1, h2⟩ := ih k hcs
      refine ⟨by simpa using h1, ?_⟩
      intro j hj
      cases j with
      | zero => omega
      | succ j =>
        have hkj : k < j := by omega
        simpa using h2 j hkj
    | none =>
      rw [hcs] at h
      by_cases hc : c = '@'
      · rw [if_pos hc] at h
        simp at h
        subst h
        refine ⟨by simp [hc], ?_⟩
        intro j hj
        cases j with
        | zero => omega
        | succ j => simpa using lastIndexOfAmp_none cs hcs j
      · rw [if_neg hc] at h; simp at h

theorem lastIndexOfAmp_eq_of_isLast (l : List Char) (i : Nat)
    (h1 : l.get? i = some '@') (h2 : ∀ j, i < j → l.get? j ≠ some '@') :
    lastIndexOfAmp l = some i := by
  cases hl : lastIndexOfAmp l with
  | none => exact absurd h1 (lastIndexOfAmp_none l hl i)
  | some k =>
    obtain ⟨hk1, hk2⟩ := lastIndexOfAmp_spec l k hl
    rcases Nat.lt_trichotomy i k with h | h | h
    · exact absurd hk1 (h2 k h)
    · rw [h]
    · exact absurd h1 (hk2 i h)

/-- Claim C5: `parseDenyRule` splits every rule string at the last
occurrence of "@" provided its position is greater than 0, returning the
prefix as the name and the trimmed suffix as the range, with an empty or
whitespace-only suffix yielding an absent range rather than an error;
when no "@" occurs at a position greater than 0 the whole trimmed string
is the name and the range is absent. -/
theorem c5_parseDenyRule_split (rule : String) :
    (∀ idx, 0 < idx →
      rule.data.get? idx = some '@' →
      (∀ j, j < rule.data.length → idx < j → rule.data.get? j ≠ some '@') →
      parseDenyRule rule =
        { name := String.mk (rule.data.take idx),
          range := if jsTrim (String.mk (rule.data.drop (idx + 1))) = "" then none
                   else some (jsTrim (String.mk (rule.data.drop (idx + 1)))) }) ∧
    ((∀ j, j < rule.data.length → 0 < j → rule.data.get? j ≠ some '@') →
      parseDenyRule rule = { name := jsTrim rule, range := none }) := by
  constructor
  · intro idx hpos hat hafter
    have hafter2 : ∀ j, idx < j → rule.data.get? j ≠ some '@' := by
      intro j hij
      by_cases hjl : j < rule.data.length
      · exact hafter j hjl hij
      · intro hcon
        have hn : rule.data.get? j = none := List.get?_eq_none.mpr (Nat.le_of_not_lt hjl)
        rw [hn] at hcon
        exact Option.noConfusion hcon
    have hidx := lastIndexOfAmp_eq_of_isLast rule.data idx hat hafter2
    unfold parseDenyRule
    rw [hidx]
    simp [hpos]
  · intro hnone
    cases hl : lastIndexOfAmp rule.data with
    | none => unfold parseDenyRule; rw [hl]
    | some k =>
      obtain ⟨hk1, hk2⟩ := lastIndexOfAmp_spec rule.data k hl
      have hk0 : k = 0 := by
        by_contra hne
        have hkpos : 0 < k := Nat.pos_of_ne_zero hne
        have hklen : k < rule.data.length := by
          by_contra hge
          have hn : rule.data.get? k = none := List.get?_eq_none.mpr (Nat.le_of_not_lt hge)
          rw [hn] at hk1
          exact Option.noConfusion hk1
        exact hnone k hklen hkpos hk1
      subst hk0
      unfold parseDenyRule
      rw [hl]
      simp

/-- Witness for claim C5: the split of "lodash@<4.17.21" at its last
separator, and the unsplit scoped name "@scope/pkg" whose only separator
sits at position 0. -/
theorem c5_witness :
    parseDenyRule ("lodash@<4.17.21") = { name := "lodash", range := some ("<4.17.21") } ∧
    parseDenyRule ("@scope/pkg") = { name := "@scope/pkg", range := none } := by
  constructor
  · have h := (c5_parseDenyRule_split ("lodash@<4.17.21")).1 6 (by decide) (by decide) (by decide)
    rw [h]
    decide
  · have h := (c5_parseDenyRule_split ("@scope/pkg")).2 (by decide)
    rw [h]
    decide

/-! ## Lemmas about the lock-manifest reader -/

theorem truthyStr_eq_some (o : Option String) (v : String) :
    truthyStr o = some v ↔ o = some v ∧ v ≠ "" := by
  cases o with
  | none => simp [truthyStr]
  | some s =>
    simp only [truthyStr]
    by_cases hs : s = ""
    · subst hs
      rw [if_pos rfl]
      constructor
      · intro h
        exact absurd h (by simp)
      · rintro ⟨h1, h2⟩
        exact absurd (Option.some_injective _ h1).symm h2
    · rw [if_neg hs]
      constructor
      · intro h
        obtain rfl := Option.some_injective _ h
        exact ⟨rfl, hs⟩
      · rintro ⟨h1, -⟩
        obtain rfl := Option.some_injective _ h1
        rfl

theorem dedupeAux_labels (l : List DepRecord) :
    ∀ (seen : List String), ∀ d ∈ dedupeAux l seen, depLabel d ∉ seen := by
  induction l with
  | nil => intro seen d hd; simp [dedupeAux] at hd
  | cons a rest ih =>
    intro seen d hd
    unfold dedupeAux at hd
    by_cases ha : depLabel a ∈ seen
    · rw [if_pos ha] at hd
      exact ih seen d hd
    · rw [if_neg ha] at hd
      rcases List.mem_cons.mp hd with rfl | hd2
      · exact ha
      · have hni := ih (depLabel a :: seen) d hd2
        intro hc
        exact hni (List.mem_cons_of_mem _ hc)

theorem dedupeAux_pairwise (l : List DepRecord) :
    ∀ (seen : List String), (dedupeAux l seen).Pairwise (fun a b => depLabel a ≠ depLabel b) := by
  induction l with
  | nil => intro seen; simp [dedupeAux]
  | cons a rest ih =>
    intro seen
    unfold dedupeAux
    by_cases ha : depLabel a ∈ seen
    · rw [if_pos ha]
      exact ih seen
    · rw [if_neg ha]
      refine List.Pairwise.cons ?_ (ih (depLabel a :: seen))
      intro b hb hc
      have hni := dedupeAux_labels rest (depLabel a :: seen) b hb
      exact hni (by rw [← hc]; exact List.mem_cons_self _ _)

theorem dedupeAux_nodup (l : List DepRecord) (seen : List String) :
    (dedupeAux l seen).Nodup := by
  have hp := dedupeAux_pairwise l seen
  exact hp.imp (fun h he => h (by rw [he]))

theorem mem_walkForest_iff (r : DepRecord) (f : DepForest) :
    r ∈ walkForest f ↔ ForestOccurs r f := by
  induction f with
  | nil =>
    constructor
    · intro h; simp [walkForest] at h
    · intro h; cases h
  | consNull name rest ih =>
    constructor
    · intro h
      rw [walkForest] at h
      exact ForestOccurs.tailNull r name rest (ih.mp h)
    · intro h
      cases h with
      | tailNull _ _ _ hrest => rw [walkForest]; exact ih.mpr hrest
  | consNode name ver children rest ihc ihr =>
    constructor
    · intro h
      rw [walkForest] at h
      rcases List.mem_append.mp h with h1 | hr
      · rcases List.mem_append.mp h1 with hv | hc
        · cases hts : truthyStr ver with
          | none => rw [hts] at hv; simp at hv
          | some v =>
            rw [hts] at hv
            simp at hv
            obtain ⟨hver, hvne⟩ := (truthyStr_eq_some ver v).mp hts
            subst hver
            subst hv
            exact ForestOccurs.head name v children rest hvne
        · exact ForestOccurs.child r name ver children rest (ihc.mp hc)
      · exact ForestOccurs.tailNode r name ver children rest (ihr.mp hr)
    · intro h
      cases h with
      | head _ v _ _ hvne =>
        rw [walkForest]
        refine List.mem_append.mpr (Or.inl (List.mem_append.mpr (Or.inl ?_)))
        have hts : truthyStr (some v) = some v := (truthyStr_eq_some (some v) v).mpr ⟨rfl, hvne⟩
        rw [hts]
        simp
      | child _ _ _ _ _ hc =>
        rw [walkForest]
        exact List.mem_append.mpr (Or.inl (List.mem_append.mpr (Or.inr (ihc.mpr hc))))
      | tailNode _ _ _ _ _ hrest =>
        rw [walkForest]
        exact List.mem_append.mpr (Or.inr (ihr.mpr hrest))

/-- Claim C8: `collectDepsFromLock` extracts records from the flat
`packages` mapping whenever it is present with at least one key,
falls back to walking the recursive `dependencies` tree (to arbitrary
depth: a record occurs somewhere in the forest exactly when it is
collected) when `packages` is absent or empty, and its output never
contains two records with the same (name, version) pair. -/
theorem c8_lock_reader (lock : Lock) :
    (∀ P, lock.packages = some P → P ≠ [] →
      collectDepsFromLock lock = dedupeAux (collectFlat P) []) ∧
    (∀ F, packagesEmptyOrAbsent lock = true → lock.dependencies = some F →
      collectDepsFromLock lock = dedupeAux (walkForest F) []) ∧
    (∀ F r, ForestOccurs r F ↔ r ∈ walkForest F) ∧
    (collectDepsFromLock lock).Nodup := by
  refine ⟨?_, ?_, ?_, ?_⟩
  · intro P hP hPne
    obtain ⟨p, ps, rfl⟩ := List.exists_cons_of_ne_nil hPne
    unfold collectDepsFromLock packagesEmptyOrAbsent
    rw [hP]
    simp
  · intro F hemp hdep
    unfold packagesEmptyOrAbsent at hemp
    unfold collectDepsFromLock packagesEmptyOrAbsent
    rw [hdep]
    cases hP : lock.packages with
    | none => simp
    | some P =>
      rw [hP] at hemp
      cases P with
      | nil => simp [collectFlat]
      | cons p ps => simp at hemp
  · exact fun F r => (mem_walkForest_iff r F).symm
  · unfold collectDepsFromLock
    dsimp only
    exact dedupeAux_nodup _ _

/-- Witness for claim C8: the flat-form lock is read from its packages
mapping, and the tree-form lock with a depth-two forest is read by the
recursive walk. -/
theorem c8_witness :
    collectDepsFromLock c8FlatLock =
      dedupeAux (collectFlat [(("node_modules/a"), PkgEntry.info none (some ("1.0.0")))]) [] ∧
    collectDepsFromLock c8TreeLock = dedupeAux (walkForest c8TreeForest) [] :=
  ⟨(c8_lock_reader c8FlatLock).1 _ rfl (by simp),
   (c8_lock_reader c8TreeLock).2.1 c8TreeForest rfl rfl⟩

theorem mem_dedupeAux_of_inj (l : List DepRecord) :
    ∀ (seen : List String),
      (∀ r1 ∈ l, ∀ r2 ∈ l, depLabel r1 = depLabel r2 → r1 = r2) →
      ∀ r, r ∈ dedupeAux l seen ↔ (r ∈ l ∧ depLabel r ∉ seen) := by
  induction l with
  | nil => intro seen hinj r; simp [dedupeAux]
  | cons a rest ih =>
    intro seen hinj r
    have hinjrest : ∀ r1 ∈ rest, ∀ r2 ∈ rest, depLabel r1 = depLabel r2 → r1 = r2 :=
      fun r1 h1 r2 h2 =>
        hinj r1 (List.mem_cons_of_mem a h1) r2 (List.mem_cons_of_mem a h2)
    unfold dedupeAux
    by_cases ha : depLabel a ∈ seen
    · rw [if_pos ha, ih seen hinjrest r]
      constructor
      · rintro ⟨hr, hs⟩
        exact ⟨List.mem_cons_of_mem a hr, hs⟩
      · rintro ⟨hr, hs⟩
        rcases List.mem_cons.mp hr with rfl | hr2
        · exact absurd ha hs
        · exact ⟨hr2, hs⟩
    · rw [if_neg ha]
      constructor
      · intro h
        rcases List.mem_cons.mp h with rfl | h2
        · exact ⟨List.mem_cons_self _ _, ha⟩
        · obtain ⟨hr, hs⟩ := (ih (depLabel a :: seen) hinjrest r).mp h2
          refine ⟨List.mem_cons_of_mem a hr, ?_⟩
          intro hc
          exact hs (List.mem_cons_of_mem _ hc)
      · rintro ⟨hr, hs⟩
        rcases List.mem_cons.mp hr with rfl | hr2
        · exact List.mem_cons_self _ _
        · by_cases hla : depLabel r = depLabel a
          · have hra : r = a :=
              hinj r (List.mem_cons_of_mem a hr2) a (List.mem_cons_self a rest) hla
            rw [hra]
            exact List.mem_cons_self _ _
          · refine List.mem_cons_of_mem a ?_
            refine (ih (depLabel a :: seen) hinjrest r).mpr ⟨hr2, ?_⟩
            intro hc
            rcases List.mem_cons.mp hc with h | h
            · exact hla h
            · exact hs h

/-- Claim C4 (amended): a flat-registry-form manifest and a
recursive-tree-form manifest (at any nesting depth) whose extracted
records are the same finite set of (name, version) pairs yield identical
deduplicated DependencyRecord sets, provided distinct pairs of that set
have distinct `name@version` key strings — the engine dedupes by that
concatenated key, so a separator character inside a name can conflate two
distinct pairs and break the equivalence. -/
theorem c4_flat_tree_same_set (pairs : List DepRecord)
    (P : List (String × PkgEntry)) (F : DepForest)
    (hP : ∀ r, r ∈ collectFlat P ↔ r ∈ pairs)
    (hF : ∀ r, r ∈ walkForest F ↔ r ∈ pairs)
    (hinj : ∀ r1 ∈ pairs, ∀ r2 ∈ pairs, depLabel r1 = depLabel r2 → r1 = r2) :
    ∀ r, r ∈ collectDepsFromLock { packages := some P, dependencies := none }
        ↔ r ∈ collectDepsFromLock { packages := none, dependencies := some F } := by
  intro r
  have hinjP : ∀ r1 ∈ collectFlat P, ∀ r2 ∈ collectFlat P,
      depLabel r1 = depLabel r2 → r1 = r2 :=
    fun r1 h1 r2 h2 => hinj r1 ((hP r1).mp h1) r2 ((hP r2).mp h2)
  have hinjF : ∀ r1 ∈ walkForest F, ∀ r2 ∈ walkForest F,
      depLabel r1 = depLabel r2 → r1 = r2 :=
    fun r1 h1 r2 h2 => hinj r1 ((hF r1).mp h1) r2 ((hF r2).mp h2)
  have e1 : collectDepsFromLock { packages := some P, dependencies := none }
      = dedupeAux (collectFlat P) [] := by
    unfold collectDepsFromLock packagesEmptyOrAbsent
    cases P with
    | nil => simp [collectFlat]
    | cons p ps => simp
  have e2 : collectDepsFromLock { packages := none, dependencies := some F }
      = dedupeAux (walkForest F) [] := by
    unfold collectDepsFromLock packagesEmptyOrAbsent
    simp
  rw [e1, e2, mem_dedupeAux_of_inj (collectFlat P) [] hinjP r,
    mem_dedupeAux_of_inj (walkForest F) [] hinjF r]
  simp [hP r, hF r]

/-- Claim C4 (counterexample): the flat manifest and the tree manifest
below encode the same two-element set of (name, version) pairs, in
different orders; the two pairs collide on the `name@version` dedupe key,
so the flat read keeps only the first pair and the tree read keeps only
the other — the deduplicated sets differ, refuting the claim as stated. -/
theorem c4_counterexample :
    collectFlat c4CounterPackages = [collidingRecA, collidingRecB] ∧
    walkForest c4CounterForest = [collidingRecB, collidingRecA] ∧
    collectDepsFromLock { packages := some c4CounterPackages, dependencies := none }
        = [collidingRecA] ∧
    collectDepsFromLock { packages := none, dependencies := some c4CounterForest }
        = [collidingRecB] ∧
    collidingRecA ≠ collidingRecB := by
  exact ⟨by decide, by decide, by decide, by decide, by decide⟩

/-- Witness for claim C4: with the collision-free two-element set
`c4Pairs`, the record b@2.0.0 lies in the flat read exactly when it lies
in the nested tree read. -/
theorem c4_witness :
    ({ name := "b", version := "2.0.0" } : DepRecord) ∈
        collectDepsFromLock { packages := some c4WitnessPackages, dependencies := none } ↔
      ({ name := "b", version := "2.0.0" } : DepRecord) ∈
        collectDepsFromLock { packages := none, dependencies := some c4WitnessForest } :=
  c4_flat_tree_same_set c4Pairs c4WitnessPackages c4WitnessForest
    (by
      have h : collectFlat c4WitnessPackages = c4Pairs := by decide
      intro r
      rw [h])
    (by
      have h : walkForest c4WitnessForest = c4Pairs := by decide
      intro r
      rw [h])
    (by decide)
    { name := "b", version := "2.0.0" }

/-! ## Lemmas about deny-rule validation -/

theorem parseDenyRule_range_none_of_name_empty (raw : String)
    (h : (parseDenyRule raw).name = "") : (parseDenyRule raw).range = none := by
  unfold parseDenyRule at h ⊢
  cases hl : lastIndexOfAmp raw.data with
  | none => rfl
  | some idx =>
    rw [hl] at h
    dsimp only at h ⊢
    by_cases hidx : 0 < idx
    · exfalso
      rw [if_pos hidx] at h
      dsimp only at h
      obtain ⟨hat, -⟩ := lastIndexOfAmp_spec raw.data idx hl
      have hlen : idx < raw.data.length := by
        by_contra hge
        have hn : raw.data.get? idx = none := List.get?_eq_none.mpr (Nat.le_of_not_lt hge)
        rw [hn] at hat
        exact Option.noConfusion hat
      have hdata : raw.data.take idx = [] := congrArg String.data h
      have hlen2 : (raw.data.take idx).length = idx := by
        rw [List.length_take]
        omega
      rw [hdata] at hlen2
      simp at hlen2
      omega
    · rw [if_neg hidx]

theorem parseRulesAux_fst_eq (env : Env) (l : List String) :
    (parseRulesAux env l).1 = (l.filter (badRuleP env)).map invalidRangeViolation := by
  induction l with
  | nil => simp [parseRulesAux]
  | cons raw rest ih =>
    by_cases hn : (parseDenyRule raw).name = ""
    · have hr := parseDenyRule_range_none_of_name_empty raw hn
      have hb : badRuleP env raw = false := by simp [badRuleP, hr]
      simp [parseRulesAux, hn, hb, List.filter_cons, ih]
    · cases hrr : (parseDenyRule raw).range with
      | none =>
        have hb : badRuleP env raw = false := by simp [badRuleP, hrr]
        simp [parseRulesAux, hn, hrr, hb, List.filter_cons, ih]
      | some rg =>
        cases hv : env.validRange rg with
        | true =>
          have hb : badRuleP env raw = false := by simp [badRuleP, hrr, hv]
          simp [parseRulesAux, hn, hrr, hv, hb, List.filter_cons, ih]
        | false =>
          have hb : badRuleP env raw = true := by simp [badRuleP, hrr, hv]
          simp [parseRulesAux, hn, hrr, hv, hb, List.filter_cons, ih]

theorem parseRulesAux_snd_eq (env : Env) (l : List String) :
    (parseRulesAux env l).2 =
      (l.filter (fun raw => decide ((parseDenyRule raw).name ≠ "") && !(badRuleP env raw))).map
        (fun raw => { rawRule := raw, name := (parseDenyRule raw).name,
                      range := (parseDenyRule raw).range }) := by
  induction l with
  | nil => simp [parseRulesAux]
  | cons raw rest ih =>
    by_cases hn : (parseDenyRule raw).name = ""
    · simp [parseRulesAux, hn, List.filter_cons, ih]
    · cases hrr : (parseDenyRule raw).range with
      | none =>
        have hb : badRuleP env raw = false := by simp [badRuleP, hrr]
        simp [parseRulesAux, hn, hrr, hb, List.filter_cons, ih]
      | some rg =>
        cases hv : env.validRange rg with
        | true =>
          have hb : badRuleP env raw = false := by simp [badRuleP, hrr, hv]
          simp [parseRulesAux, hn, hrr, hv, hb, List.filter_cons, ih]
        | false =>
          have hb : badRuleP env raw = true := by simp [badRuleP, hrr, hv]
          simp [parseRulesAux, hn, hrr, hv, hb, List.filter_cons, ih]

theorem map_overrideOne_id (ov : List (String × String)) (l : List Violation)
    (h : ∀ v ∈ l, truthyLookup ov v.ruleId = none) :
    l.map (overrideOne ov) = l := by
  induction l with
  | nil => rfl
  | cons a rest ih =>
    rw [List.map_cons, overrideOne_of_none ov a (h a (List.mem_cons_self _ _)),
      ih (fun v hv => h v (List.mem_cons_of_mem a hv))]

theorem baseViolations_ruleId (env : Env) (cfg : Config) (prTitle : String) :
    ∀ v ∈ titleViolations env cfg prTitle ++ requiredFilesViolations env cfg,
      v.ruleId = "pr_title_regex" ∨ v.ruleId = "required_files" := by
  intro v hv
  rcases List.mem_append.mp hv with h1 | h2
  · exact Or.inl (titleViolations_ruleId env cfg prTitle v h1)
  · exact Or.inr (requiredFilesViolations_ruleId env cfg v h2)

/-- Claim C2: when the run reaches denylist evaluation (a configuration
with a truthy deny list, a readable lock manifest, no title-regex early
return) and some deny rule carries a non-empty range failing semver-range
validation, the returned violations contain one error-severity
`dependency_denylist_invalid` violation per invalid rule — exactly the
list of them — and no `dependency_denylist` violation is produced, even
though other, valid, rules may name-and-range-match resolved
dependencies (the hypotheses place no restriction on matches).  The
severity conclusion assumes no truthy severity override targets
`dependency_denylist_invalid`. -/
theorem c2_invalid_range_isolation (env : Env) (cfg : Config) (prTitle : String)
    (denyDeps : List String) (lock : Lock)
    (hdeny : truthyList cfg.deny = some denyDeps)
    (hlock : env.lockResult = LockResult.ok lock)
    (htitle : titleOk env cfg = true)
    (hbad : denyDeps.filter (badRuleP env) ≠ [])
    (hov : truthyLookup cfg.severity_overrides ("dependency_denylist_invalid") = none) :
    ((compileViolations env (some cfg) prTitle).filter
        (fun v => decide (v.ruleId = "dependency_denylist_invalid"))
      = (denyDeps.filter (badRuleP env)).map invalidRangeViolation) ∧
    (∀ v ∈ compileViolations env (some cfg) prTitle, v.ruleId ≠ "dependency_denylist") ∧
    (∀ v ∈ compileViolations env (some cfg) prTitle,
      v.ruleId = "dependency_denylist_invalid" → v.severity = "error") := by
  have htail : denyTail env cfg = (denyDeps.filter (badRuleP env)).map invalidRangeViolation := by
    unfold denyTail
    rw [hdeny, hlock]
    dsimp only
    rw [parseRulesAux_fst_eq env denyDeps]
    have hmapne : (denyDeps.filter (badRuleP env)).map invalidRangeViolation ≠ [] := by
      simp only [ne_eq, List.map_eq_nil_iff]
      exact hbad
    rw [if_neg hmapne]
  have hdec := compileViolations_decomp env cfg prTitle htitle
  have hbaseRule := baseViolations_ruleId env cfg prTitle
  refine ⟨?_, ?_, ?_⟩
  · rw [hdec, htail]
    unfold applySeverityOverrides
    dsimp only
    rw [List.filter_map]
    have hpf : ((fun v => decide (v.ruleId = "dependency_denylist_invalid")) ∘
        overrideOne cfg.severity_overrides)
        = (fun v => decide (v.ruleId = "dependency_denylist_invalid")) := by
      funext v
      simp [Function.comp, overrideOne_ruleId]
    rw [hpf, List.filter_append]
    have hbase0 : (titleViolations env cfg prTitle ++ requiredFilesViolations env cfg).filter
        (fun v => decide (v.ruleId = "dependency_denylist_invalid")) = [] := by
      rw [List.filter_eq_nil_iff]
      intro v hv
      rcases hbaseRule v hv with h | h <;> simp [h]
    have htailf : ((denyDeps.filter (badRuleP env)).map invalidRangeViolation).filter
        (fun v => decide (v.ruleId = "dependency_denylist_invalid"))
        = (denyDeps.filter (badRuleP env)).map invalidRangeViolation := by
      rw [List.filter_eq_self]
      intro v hv
      obtain ⟨raw, -, rfl⟩ := List.mem_map.mp hv
      exact decide_eq_true rfl
    rw [hbase0, htailf, List.nil_append]
    refine map_overrideOne_id cfg.severity_overrides _ ?_
    intro v hv
    obtain ⟨raw, -, rfl⟩ := List.mem_map.mp hv
    exact hov
  · intro v hv
    rw [hdec] at hv
    obtain ⟨v0, hv0, rfl⟩ := mem_applySeverityOverrides cfg _ v hv
    rw [overrideOne_ruleId]
    rcases List.mem_append.mp hv0 with hb | ht
    · rcases hbaseRule v0 hb with h | h <;> rw [h] <;> decide
    · rw [htail] at ht
      obtain ⟨raw, -, rfl⟩ := List.mem_map.mp ht
      exact (by decide : ("dependency_denylist_invalid" : String) ≠ "dependency_denylist")
  · intro v hv hrid
    rw [hdec] at hv
    obtain ⟨v0, hv0, rfl⟩ := mem_applySeverityOverrides cfg _ v hv
    rcases List.mem_append.mp hv0 with hb | ht
    · rw [overrideOne_ruleId] at hrid
      rcases hbaseRule v0 hb with h | h <;> rw [h] at hrid <;> exact absurd hrid (by decide)
    · rw [htail] at ht
      obtain ⟨raw, -, rfl⟩ := List.mem_map.mp ht
      rw [overrideOne_of_none cfg.severity_overrides (invalidRangeViolation raw) hov]
      rfl

/-- Witness for claim C2: an invalid rule "pkg@not-a-range" next to the
valid, matching rule "lodash@<4.17.21" against a lock resolving
lodash@4.17.20 — the run reports exactly the one invalid-range violation
and no dependency_denylist violation. -/
theorem c2_witness :
    (compileViolations c2WitnessEnv (some c2WitnessConfig) ("t")).filter
        (fun v => decide (v.ruleId = "dependency_denylist_invalid"))
      = [invalidRangeViolation ("pkg@not-a-range")] ∧
    (∀ v ∈ compileViolations c2WitnessEnv (some c2WitnessConfig) ("t"),
      v.ruleId ≠ "dependency_denylist") := by
  have h := c2_invalid_range_isolation c2WitnessEnv c2WitnessConfig ("t")
    [("pkg@not-a-range"), ("lodash@<4.17.21")] c2WitnessLock rfl rfl (by decide)
    (by decide) rfl
  exact ⟨h.1.trans (by decide), h.2.1⟩

/-! ## Lemmas about denylist matching -/

theorem ruleMatchLabel_ne_none_iff (env : Env) (rule : ParsedRule) (dep : DepRecord) :
    ruleMatchLabel env rule dep ≠ none ↔
      (dep.name = rule.name ∧
        (rule.range = none ∨ ∃ rg cv, rule.range = some rg ∧
          env.coerce dep.version = some cv ∧ env.satisfies cv rg = true)) := by
  unfold ruleMatchLabel
  by_cases hn : dep.name = rule.name
  · rw [if_pos hn]
    cases hr : rule.range with
    | none => simp [hn]
    | some rg =>
      cases hc : env.coerce dep.version with
      | none => simp [hn, hc]
      | some cv =>
        cases hs : env.satisfies cv rg with
        | true => simp [hn, hc, hs]
        | false => simp [hn, hc, hs]
  · rw [if_neg hn]
    simp [hn]

theorem mem_computeBanned (env : Env) (rules : List ParsedRule) (deps : List DepRecord)
    (s : String) :
    s ∈ computeBanned env rules deps ↔
      ∃ rule ∈ rules, ∃ dep ∈ deps, ruleMatchLabel env rule dep = some s := by
  unfold computeBanned
  simp [List.mem_flatMap, List.mem_filterMap]

/-- Claim C6: when the run reaches denylist evaluation with every deny
rule valid, and no truthy severity override targets
`dependency_denylist`, the run's `dependency_denylist` violations are
exactly one error-severity aggregated violation listing all banned
labels when some (rule, dependency) pair matches, and none otherwise;
and a pair matches exactly when the names agree and either the rule is
rangeless (banning any version, coercible or not) or the dependency's
version coerces and the coerced form satisfies the range — versions that
fail to coerce are skipped for ranged rules, being neither an error nor a
match. -/
theorem c6_denylist_matching (env : Env) (cfg : Config) (prTitle : String)
    (denyDeps : List String) (lock : Lock)
    (hdeny : truthyList cfg.deny = some denyDeps)
    (hlock : env.lockResult = LockResult.ok lock)
    (htitle : titleOk env cfg = true)
    (hvalid : denyDeps.filter (badRuleP env) = [])
    (hov : truthyLookup cfg.severity_overrides ("dependency_denylist") = none) :
    ((compileViolations env (some cfg) prTitle).filter
        (fun v => decide (v.ruleId = "dependency_denylist"))
      = (if computeBanned env (parseRulesAux env denyDeps).2 (collectDepsFromLock lock) = []
         then []
         else [denylistViolation
           (computeBanned env (parseRulesAux env denyDeps).2 (collectDepsFromLock lock))])) ∧
    (computeBanned env (parseRulesAux env denyDeps).2 (collectDepsFromLock lock) ≠ [] ↔
      ∃ raw ∈ denyDeps, ∃ dep ∈ collectDepsFromLock lock, bansDepP env raw dep) := by
  have hallvalid : ∀ raw ∈ denyDeps, badRuleP env raw = false := by
    intro raw hraw
    cases h : badRuleP env raw with
    | false => rfl
    | true =>
      exfalso
      have hm : raw ∈ denyDeps.filter (badRuleP env) := List.mem_filter.mpr ⟨hraw, h⟩
      rw [hvalid] at hm
      simp at hm
  have htail : denyTail env cfg =
      (if computeBanned env (parseRulesAux env denyDeps).2 (collectDepsFromLock lock) = []
       then []
       else [denylistViolation
         (computeBanned env (parseRulesAux env denyDeps).2 (collectDepsFromLock lock))]) := by
    unfold denyTail
    rw [hdeny, hlock]
    dsimp only
    rw [parseRulesAux_fst_eq env denyDeps, hvalid]
    rw [List.map_nil, if_pos rfl]
    cases hb : computeBanned env (parseRulesAux env denyDeps).2 (collectDepsFromLock lock) with
    | nil => rw [if_pos rfl]
    | cons b bs => rw [if_neg (by simp)]
  have hdec := compileViolations_decomp env cfg prTitle htitle
  have hbaseRule := baseViolations_ruleId env cfg prTitle
  constructor
  · rw [hdec, htail]
    unfold applySeverityOverrides
    dsimp only
    rw [List.filter_map]
    have hpf : ((fun v => decide (v.ruleId = "dependency_denylist")) ∘
        overrideOne cfg.severity_overrides)
        = (fun v => decide (v.ruleId = "dependency_denylist")) := by
      funext v
      simp [Function.comp, overrideOne_ruleId]
    rw [hpf, List.filter_append]
    have hbase0 : (titleViolations env cfg prTitle ++ requiredFilesViolations env cfg).filter
        (fun v => decide (v.ruleId = "dependency_denylist")) = [] := by
      rw [List.filter_eq_nil_iff]
      intro v hv
      rcases hbaseRule v hv with h | h <;> simp [h]
    rw [hbase0, List.nil_append]
    cases hb : computeBanned env (parseRulesAux env denyDeps).2 (collectDepsFromLock lock) with
    | nil => rfl
    | cons b bs =>
      rw [if_neg (by simp)]
      have hfil : (List.filter (fun v => decide (v.ruleId = "dependency_denylist"))
          [denylistViolation (b :: bs)]) = [denylistViolation (b :: bs)] := by
        simp [denylistViolation]
      rw [hfil, List.map_cons, List.map_nil,
        overrideOne_of_none cfg.severity_overrides (denylistViolation (b :: bs)) hov]
  · constructor
    · intro hne
      obtain ⟨s, hs⟩ := List.exists_mem_of_ne_nil _ hne
      obtain ⟨rule, hrule, dep, hdep, hlab⟩ :=
        (mem_computeBanned env (parseRulesAux env denyDeps).2 (collectDepsFromLock lock) s).mp hs
      rw [parseRulesAux_snd_eq env denyDeps] at hrule
      obtain ⟨raw, hraw, rfl⟩ := List.mem_map.mp hrule
      obtain ⟨hrawmem, hpred⟩ := List.mem_filter.mp hraw
      have hname : (parseDenyRule raw).name ≠ "" := by
        rw [Bool.and_eq_true] at hpred
        exact of_decide_eq_true hpred.1
      have hmatch := (ruleMatchLabel_ne_none_iff env
        (⟨raw, (parseDenyRule raw).name, (parseDenyRule raw).range⟩ : ParsedRule)
        dep).mp (by rw [hlab]; exact Option.some_ne_none s)
      exact ⟨raw, hrawmem, dep, hdep, hname, hmatch.1, hmatch.2⟩
    · rintro ⟨raw, hraw, dep, hdep, hname, hnm, hdisj⟩
      have hrule : (⟨raw, (parseDenyRule raw).name, (parseDenyRule raw).range⟩ : ParsedRule)
          ∈ (parseRulesAux env denyDeps).2 := by
        rw [parseRulesAux_snd_eq env denyDeps]
        refine List.mem_map.mpr ⟨raw, ?_, rfl⟩
        refine List.mem_filter.mpr ⟨hraw, ?_⟩
        rw [Bool.and_eq_true]
        exact ⟨decide_eq_true hname, by rw [hallvalid raw hraw]; rfl⟩
      have hne : ruleMatchLabel env
          (⟨raw, (parseDenyRule raw).name, (parseDenyRule raw).range⟩ : ParsedRule)
          dep ≠ none :=
        (ruleMatchLabel_ne_none_iff env _ dep).mpr ⟨hnm, hdisj⟩
      obtain ⟨s, hs⟩ := Option.ne_none_iff_exists'.mp hne
      have hmem : s ∈ computeBanned env (parseRulesAux env denyDeps).2 (collectDepsFromLock lock) :=
        (mem_computeBanned env _ _ s).mpr ⟨_, hrule, dep, hdep, hs⟩
      exact List.ne_nil_of_mem hmem

/-- Witness for claim C6: the deny rule "lodash@<4.17.21" against a lock
resolving lodash@4.17.20 produces exactly one aggregated
dependency_denylist violation naming lodash@4.17.20; against
lodash@4.17.21 it produces none. -/
theorem c6_witness :
    (compileViolations c6MatchEnv (some c6Config) ("t")).filter
        (fun v => decide (v.ruleId = "dependency_denylist"))
      = [denylistViolation ([("lodash@4.17.20 (matches lodash@<4.17.21)")])] ∧
    (compileViolations c6NoMatchEnv (some c6Config) ("t")).filter
        (fun v => decide (v.ruleId = "dependency_denylist")) = [] := by
  have h1 := c6_denylist_matching c6MatchEnv c6Config ("t")
    [("lodash@<4.17.21")] c6MatchLock rfl rfl rfl (by decide) rfl
  have h2 := c6_denylist_matching c6NoMatchEnv c6Config ("t")
    [("lodash@<4.17.21")] c6NoMatchLock rfl rfl rfl (by decide) rfl
  exact ⟨h1.1.trans (by decide), h2.1.trans (by decide)⟩
